import Mathlib

/-!
Verification of the `lake-cache` repository: a cache-aside key/value facade
built from two alternate LRU+TTL cache implementations (`src/store/cache.rs`,
`src/store/cache2.rs`), an S3-backed store (`src/store/s3_store.rs`) and an
axum proxy (`src/main.rs`).

The embedding below models:
* `LRUCache` (cache.rs): a hash map from keys to nodes plus a doubly-linked
  recency list.  The map is modelled as an association list with unique keys,
  and the linked list as the list of keys in recency order (head first);
  `remove_node` / `add_to_head` / `move_to_head` act on that list exactly as
  the pointer surgery in the source does on a well-formed list.
* `CacheData` / `LRUCache2` (cache2.rs): modelled field by field — the value
  map `cache`, the (never-updated, hence stale) position map `cache_index`,
  and the `keys` deque, with `VecDeque::remove(i)` as `List.eraseIdx`,
  `push_front` as cons and `pop_back` as `dropLast`/`getLast?`.
* the `thread_local!` storage of both caches: a family of independent cache
  states indexed by thread id.
* the proxy handlers `get_key` / `post_key` of main.rs, with the backing
  store's reply passed in as data and its calls counted explicitly.

Bytes are modelled as lists of naturals, timestamps as naturals (seconds for
cache.rs, milliseconds for cache2.rs), with "now" an explicit argument at the
points where the source reads the clock.
-/

/-- Byte strings (`bytes::Bytes`) as lists of byte values. -/
abbrev Bytes := List Nat

/-! ### Association lists standing in for `HashMap<String, V>` -/

/-- `HashMap::get`: first binding of `k`, if any. -/
def alookup {α : Type} (l : List (String × α)) (k : String) : Option α :=
  match l with
  | [] => none
  | (k', v) :: t => if k' = k then some v else alookup t k

/-- `HashMap::insert`: replace the binding of `k` in place, or append it. -/
def ainsert {α : Type} (l : List (String × α)) (k : String) (v : α) :
    List (String × α) :=
  match l with
  | [] => [(k, v)]
  | (k', v') :: t => if k' = k then (k, v) :: t else (k', v') :: ainsert t k v

/-- `HashMap::remove`: drop the first binding of `k`. -/
def aremove {α : Type} (l : List (String × α)) (k : String) :
    List (String × α) :=
  match l with
  | [] => []
  | (k', v') :: t => if k' = k then t else (k', v') :: aremove t k

/-! ### cache.rs : `LRUCache` -/

/-- The payload of a `Node` in cache.rs (its `key` is the map key; the
`prev`/`next` pointers are represented by the node's position in `order`). -/
structure NodeData where
  value : Bytes
  expires_at : Nat
deriving DecidableEq, Repr

/-- The state of `LRUCache` (cache.rs): capacity, ttl, the key→node map and
the recency list of keys, head first, tail last. -/
structure LRUCache where
  capacity : Nat
  ttl_seconds : Nat
  map : List (String × NodeData)
  order : List String
deriving DecidableEq, Repr

namespace LRUCache

/-- `LRUCache::new`. -/
def new (capacity ttl_seconds : Nat) : LRUCache :=
  ⟨capacity, ttl_seconds, [], []⟩

/-- `LRUCache::remove_node`: unlink the node with the given key from the
doubly-linked list (the node keeps existing; only the list changes). -/
def remove_node (s : LRUCache) (key : String) : LRUCache :=
  { s with order := s.order.erase key }

/-- `LRUCache::add_to_head`: link the node in at the head. -/
def add_to_head (s : LRUCache) (key : String) : LRUCache :=
  { s with order := key :: s.order }

/-- `LRUCache::move_to_head` = `remove_node` then `add_to_head`. -/
def move_to_head (s : LRUCache) (key : String) : LRUCache :=
  add_to_head (remove_node s key) key

/-- `LRUCache::add_item`.  `now` is the clock value read by `create_node`.
If the key exists: overwrite the node's value (its `expires_at` is untouched)
and move it to the head.  Otherwise create a node expiring at
`now + ttl_seconds`, put it at the head, insert it into the map, and if the
map now exceeds capacity, unlink the tail node and remove its key. -/
def add_item (s : LRUCache) (now : Nat) (key : String) (value : Bytes) :
    LRUCache :=
  match alookup s.map key with
  | some nd =>
      move_to_head { s with map := ainsert s.map key { nd with value := value } } key
  | none =>
      let s2 : LRUCache :=
        { s with
          map := ainsert s.map key ⟨value, now + s.ttl_seconds⟩,
          order := key :: s.order }
      if s2.map.length > s2.capacity then
        match s2.order.getLast? with
        | some tail_key =>
            { s2 with
              order := s2.order.erase tail_key,
              map := aremove s2.map tail_key }
        | none => s2
      else s2

/-- `LRUCache::get_item`.  `now` is the clock value of `now_seconds()`.
An existing entry with `now > expires_at` is removed and the call misses;
otherwise the entry moves to the head and its value is returned. -/
def get_item (s : LRUCache) (now : Nat) (key : String) :
    Option Bytes × LRUCache :=
  match alookup s.map key with
  | some nd =>
      if now > nd.expires_at then
        (none, { s with order := s.order.erase key, map := aremove s.map key })
      else
        (some nd.value, move_to_head s key)
  | none => (none, s)

end LRUCache

/-! ### cache.rs : `LocalCache` over `thread_local! CACHE`

Each OS thread owns one independent `LRUCache`; a system state is the family
of per-thread cache states, and every `LocalCache` method acts on the state of
the calling thread only. -/

/-- `LocalCache::new(capacity, ttl)` run by thread `t`: overwrite thread `t`'s
cache with a fresh `LRUCache::new(capacity, ttl)`. -/
def localcache_new (sys : Nat → LRUCache) (t : Nat) (capacity ttl : Nat) :
    Nat → LRUCache :=
  fun u => if u = t then LRUCache.new capacity ttl else sys u

/-- `LocalCache::add_item` run by thread `t`. -/
def localcache_add_item (sys : Nat → LRUCache) (t : Nat) (now : Nat)
    (key : String) (value : Bytes) : Nat → LRUCache :=
  fun u => if u = t then (sys t).add_item now key value else sys u

/-- `LocalCache::get_item` run by thread `t`: the returned value and the new
system state. -/
def localcache_get_item (sys : Nat → LRUCache) (t : Nat) (now : Nat)
    (key : String) : Option Bytes × (Nat → LRUCache) :=
  let r := (sys t).get_item now key
  (r.1, fun u => if u = t then r.2 else sys u)

/-! ### cache2.rs : `CacheData` / `LRUCache2` -/

/-- `CacheItem` of cache2.rs. -/
structure CacheItem where
  value : Bytes
  expiration_time_millis : Nat
deriving DecidableEq, Repr

/-- `CacheData` of cache2.rs: the value map, the position map, the recency
deque (front first) and the configuration. -/
structure CacheData where
  cache : List (String × CacheItem)
  cache_index : List (String × Nat)
  keys : List String
  capacity : Nat
  ttl_seconds : Nat
deriving DecidableEq, Repr

namespace Cache2

/-- The `CACHE_DATA` initializer of the `thread_local!` block. -/
def initData : CacheData := ⟨[], [], [], 0, 0⟩

/-- `LRUCache2::new`: overwrite capacity and ttl of the thread's data. -/
def new (d : CacheData) (capacity ttl_seconds : Nat) : CacheData :=
  { d with capacity := capacity, ttl_seconds := ttl_seconds }

/-- `LRUCache2::push_item_to_front`: if the key has a recorded index, call
`VecDeque::remove` at that (possibly stale) index, then push the key to the
front and record index 0 for it. -/
def push_item_to_front (d : CacheData) (key : String) : CacheData :=
  let keys1 :=
    match alookup d.cache_index key with
    | some i => d.keys.eraseIdx i
    | none => d.keys
  { d with
    keys := key :: keys1,
    cache_index := ainsert d.cache_index key 0 }

/-- `LRUCache2::evict_by_key`: if the key has a recorded index, remove that
deque position and drop the key from both maps. -/
def evict_by_key (d : CacheData) (key : String) : CacheData :=
  match alookup d.cache_index key with
  | some i =>
      { d with
        keys := d.keys.eraseIdx i,
        cache := aremove d.cache key,
        cache_index := aremove d.cache_index key }
  | none => d

/-- `LRUCache2::evict_if_necessary`: while over capacity in the deque, pop the
back key once and drop it from both maps. -/
def evict_if_necessary (d : CacheData) : CacheData :=
  if d.keys.length > d.capacity then
    match d.keys.getLast? with
    | some lru_key =>
        { d with
          keys := d.keys.dropLast,
          cache := aremove d.cache lru_key,
          cache_index := aremove d.cache_index lru_key }
    | none => d
  else d

/-- `LRUCache2::set`.  `now` is `current_time_millis()`. -/
def set (d : CacheData) (now : Nat) (key : String) (value : Bytes) :
    CacheData :=
  let item : CacheItem := ⟨value, now + d.ttl_seconds * 1000⟩
  evict_if_necessary
    (push_item_to_front { d with cache := ainsert d.cache key item } key)

/-- `LRUCache2::get`.  `now` is `current_time_millis()`.  A present item is a
hit iff its expiration is strictly in the future; otherwise it is evicted. -/
def get (d : CacheData) (now : Nat) (key : String) :
    Option Bytes × CacheData :=
  match alookup d.cache key with
  | some item =>
      if item.expiration_time_millis > now then
        (some item.value, push_item_to_front d key)
      else
        (none, evict_by_key d key)
  | none => (none, d)

end Cache2

/-! ### s3_store.rs / main.rs : backing store outcomes and proxy handlers -/

/-- The outcome of `S3Store::get` as classified by `get_key`
(`StoreError::ItemNotFound`, any other `StoreError`, or the bytes). -/
inductive FetchResult where
  | itemNotFound (key : String)
  | otherError (msg : String)
  | ok (content : Bytes)
deriving DecidableEq, Repr

/-- The outcome of `S3Store::set` as observed by `post_key`. -/
inductive StoreSetResult where
  | ok
  | err (msg : String)
deriving DecidableEq, Repr

/-- HTTP-level responses the proxy can produce on the read path. -/
inductive ReadResponse where
  | ok200 (content : Bytes)
  | notFound404
  | internalError500
deriving DecidableEq, Repr

/-- `get_key` of main.rs over one thread's cache.  `fetch` is the reply the
backing store would give if called, and the returned `Nat` counts how many
backing-store fetches the handler performed.  On a cache hit the store is
never consulted; on a miss, `ItemNotFound` maps to 404 and any other error to
500, both leaving the post-lookup cache untouched, while a fetched value is
added to the cache and returned. -/
def get_key (cache : LRUCache) (now : Nat) (key : String)
    (fetch : FetchResult) : ReadResponse × LRUCache × Nat :=
  match cache.get_item now key with
  | (some content, cache1) => (.ok200 content, cache1, 0)
  | (none, cache1) =>
      match fetch with
      | .itemNotFound _ => (.notFound404, cache1, 1)
      | .otherError _ => (.internalError500, cache1, 1)
      | .ok content => (.ok200 content, cache1.add_item now key content, 1)

/-- `post_key` of main.rs: forward the body to `S3Store::set` (whose reply is
`res`), return 201 on success and 500 on any error.  The result records the
HTTP status, the (untouched) cache and the number of store calls made. -/
def post_key (cache : LRUCache) (res : StoreSetResult) :
    Nat × LRUCache × Nat :=
  match res with
  | .ok => (201, cache, 1)
  | .err _ => (500, cache, 1)

/-! ### Association-list lemmas -/

theorem alookup_eq_none_iff {α : Type} (l : List (String × α)) (k : String) :
    alookup l k = none ↔ k ∉ l.map Prod.fst := by
  induction l with
  | nil => simp [alookup]
  | cons p t ih =>
      obtain ⟨k', v⟩ := p
      by_cases h : k' = k
      · subst h; simp [alookup]
      · simp [alookup, h, ih, Ne.symm h]

theorem alookup_isSome_iff {α : Type} (l : List (String × α)) (k : String) :
    (alookup l k).isSome ↔ k ∈ l.map Prod.fst := by
  rw [← not_iff_not, ← alookup_eq_none_iff, Option.not_isSome_iff_eq_none]

theorem alookup_ainsert_self {α : Type} (l : List (String × α)) (k : String)
    (v : α) : alookup (ainsert l k v) k = some v := by
  induction l with
  | nil => simp [ainsert, alookup]
  | cons p t ih =>
      obtain ⟨k', v'⟩ := p
      by_cases h : k' = k
      · simp [ainsert, alookup, h]
      · simp [ainsert, alookup, h, ih]

theorem alookup_ainsert_of_ne {α : Type} (l : List (String × α))
    {k k' : String} (v : α) (h : k ≠ k') :
    alookup (ainsert l k v) k' = alookup l k' := by
  induction l with
  | nil => simp [ainsert, alookup, h]
  | cons p t ih =>
      obtain ⟨k2, v2⟩ := p
      by_cases h2 : k2 = k
      · subst h2; simp [ainsert, alookup, h]
      · simp [ainsert, alookup, h2, ih]

theorem length_ainsert_of_none {α : Type} {l : List (String × α)} {k : String}
    (v : α) (h : alookup l k = none) :
    (ainsert l k v).length = l.length + 1 := by
  induction l with
  | nil => simp [ainsert]
  | cons p t ih =>
      obtain ⟨k', v'⟩ := p
      by_cases h2 : k' = k
      · subst h2; simp [alookup] at h
      · simp [alookup, h2] at h
        simp [ainsert, h2, ih h]

theorem length_ainsert_of_some {α : Type} {l : List (String × α)} {k : String}
    {w : α} (v : α) (h : alookup l k = some w) :
    (ainsert l k v).length = l.length := by
  induction l with
  | nil => simp [alookup] at h
  | cons p t ih =>
      obtain ⟨k', v'⟩ := p
      by_cases h2 : k' = k
      · simp [ainsert, h2]
      · simp [alookup, h2] at h
        simp [ainsert, h2, ih h]

theorem map_fst_ainsert_of_none {α : Type} {l : List (String × α)}
    {k : String} (v : α) (h : alookup l k = none) :
    (ainsert l k v).map Prod.fst = l.map Prod.fst ++ [k] := by
  induction l with
  | nil => simp [ainsert]
  | cons p t ih =>
      obtain ⟨k', v'⟩ := p
      by_cases h2 : k' = k
      · subst h2; simp [alookup] at h
      · simp [alookup, h2] at h
        simp [ainsert, h2, ih h]

theorem map_fst_aremove {α : Type} (l : List (String × α)) (k : String) :
    (aremove l k).map Prod.fst = (l.map Prod.fst).erase k := by
  induction l with
  | nil => simp [aremove]
  | cons p t ih =>
      obtain ⟨k', v'⟩ := p
      by_cases h2 : k' = k
      · subst h2; simp [aremove, List.erase_cons_head]
      · simp [aremove, h2, ih, List.erase_cons_tail, h2]

theorem alookup_aremove_of_ne {α : Type} (l : List (String × α))
    {k k' : String} (h : k ≠ k') :
    alookup (aremove l k) k' = alookup l k' := by
  induction l with
  | nil => simp [aremove]
  | cons p t ih =>
      obtain ⟨k2, v2⟩ := p
      by_cases h2 : k2 = k
      · subst h2; simp [aremove, alookup, h]
      · simp [aremove, alookup, h2, ih]

theorem alookup_aremove_self {α : Type} {l : List (String × α)} {k : String}
    (h : (l.map Prod.fst).Nodup) : alookup (aremove l k) k = none := by
  induction l with
  | nil => simp [aremove, alookup]
  | cons p t ih =>
      obtain ⟨k', v'⟩ := p
      simp only [List.map_cons, List.nodup_cons] at h
      by_cases h2 : k' = k
      · subst h2
        rw [aremove, if_pos rfl, alookup_eq_none_iff]
        exact h.1
      · rw [aremove, if_neg h2, alookup, if_neg h2]
        exact ih h.2

theorem length_aremove_of_some {α : Type} {l : List (String × α)} {k : String}
    {w : α} (h : alookup l k = some w) :
    l.length = (aremove l k).length + 1 := by
  induction l with
  | nil => simp [alookup] at h
  | cons p t ih =>
      obtain ⟨k', v'⟩ := p
      by_cases h2 : k' = k
      · simp [aremove, h2]
      · simp [alookup, h2] at h
        simp [aremove, h2, ih h]

theorem getLast?_cons_of_ne_nil {a : String} {l : List String} (h : l ≠ []) :
    (a :: l).getLast? = l.getLast? := by
  cases l with
  | nil => exact absurd rfl h
  | cons b t => exact List.getLast?_cons_cons

/-- Erasing the last element of a duplicate-free list is `dropLast`. -/
theorem erase_getLast_of_nodup (l : List String) {tk : String}
    (hn : l.Nodup) (htk : l.getLast? = some tk) :
    l.erase tk = l.dropLast := by
  induction l with
  | nil => simp at htk
  | cons a t ih =>
      cases t with
      | nil =>
          simp only [List.getLast?_singleton, Option.some.injEq] at htk
          subst htk
          simp
      | cons b t2 =>
          have hne : (b :: t2) ≠ [] := by simp
          have hlast : (b :: t2).getLast? = some tk := by
            rw [← htk, List.getLast?_cons_cons]
          have hmem : tk ∈ b :: t2 := by
            have := List.getLast?_eq_getLast (b :: t2) hne
            rw [this] at hlast
            exact (Option.some.injEq _ _).mp hlast ▸ List.getLast_mem hne
          have hane : a ≠ tk := by
            intro hcontra
            subst hcontra
            exact (List.nodup_cons.mp hn).1 hmem
          rw [List.erase_cons_tail, ih (List.nodup_cons.mp hn).2 hlast]
          · rfl
          · simp [hane]

/-! ### Shape lemmas for the cache.rs operations -/

namespace LRUCache

/-- Well-formedness of an `LRUCache` state: the recency list has no duplicate
keys and carries exactly the keys of the map (spec invariant I2 for cache.rs).
Every state reachable from `new` satisfies this. -/
def WF (s : LRUCache) : Prop :=
  s.order.Nodup ∧ (s.map.map Prod.fst).Perm s.order

instance (s : LRUCache) : Decidable s.WF := by
  unfold WF; infer_instance

/-- `add_item` on an absent key, with the eviction test spelled out. -/
theorem add_item_of_none (s : LRUCache) (now : Nat) (key : String) (v : Bytes)
    (hnone : alookup s.map key = none) :
    s.add_item now key v =
      if s.map.length + 1 > s.capacity then
        match (key :: s.order).getLast? with
        | some tk =>
            { s with
              map := aremove (ainsert s.map key ⟨v, now + s.ttl_seconds⟩) tk,
              order := (key :: s.order).erase tk }
        | none =>
            { s with
              map := ainsert s.map key ⟨v, now + s.ttl_seconds⟩,
              order := key :: s.order }
      else
        { s with
          map := ainsert s.map key ⟨v, now + s.ttl_seconds⟩,
          order := key :: s.order } := by
  simp only [add_item, hnone, length_ainsert_of_none _ hnone]

/-- `add_item` on a present key: overwrite the value, keep `expires_at`, move
the key to the head. -/
theorem add_item_of_some (s : LRUCache) (now : Nat) (key : String) (v : Bytes)
    (nd : NodeData) (h : alookup s.map key = some nd) :
    s.add_item now key v =
      { s with
        map := ainsert s.map key ⟨v, nd.expires_at⟩,
        order := key :: s.order.erase key } := by
  simp only [add_item, h, move_to_head, add_to_head, remove_node]

end LRUCache

/-! ### Claim theorems -/

/-- C3: on an over-capacity insert of a genuinely new key into a well-formed
`LRUCache` holding exactly `capacity` live entries (capacity positive, as
configured at startup), exactly one entry is evicted: the current tail of the
recency order.  The tail key exists, differs from the new key, the new key is
admitted at the head with `expires_at = now + ttl`, the tail key is removed,
every other key is untouched, and the live count returns to `capacity`.
Moreover an insert that updates an already-present key performs no eviction:
the map length is unchanged and the key merely moves to the head. -/
theorem add_item_eviction_policy :
    (∀ (s : LRUCache) (now : Nat) (key : String) (v : Bytes),
      s.WF → 1 ≤ s.capacity → s.map.length = s.capacity →
      alookup s.map key = none →
      ∃ tk, s.order.getLast? = some tk ∧ tk ≠ key ∧
        (s.add_item now key v).order = key :: s.order.dropLast ∧
        alookup (s.add_item now key v).map key = some ⟨v, now + s.ttl_seconds⟩ ∧
        alookup (s.add_item now key v).map tk = none ∧
        (∀ k2, k2 ≠ key → k2 ≠ tk →
          alookup (s.add_item now key v).map k2 = alookup s.map k2) ∧
        (s.add_item now key v).map.length = s.capacity) ∧
    (∀ (s : LRUCache) (now : Nat) (key : String) (v : Bytes) (nd : NodeData),
      alookup s.map key = some nd →
      (s.add_item now key v).map.length = s.map.length ∧
      (s.add_item now key v).order = key :: s.order.erase key) := by
  constructor
  · intro s now key v hwf hcap hlen hnone
    obtain ⟨hnodup, hperm⟩ := hwf
    have hmapnodup : (s.map.map Prod.fst).Nodup := hperm.nodup_iff.mpr hnodup
    have horderlen : s.order.length = s.capacity := by
      rw [← hperm.length_eq, List.length_map, hlen]
    have hordernenil : s.order ≠ [] := by
      intro h
      rw [h] at horderlen
      simp at horderlen
      omega
    have htk : s.order.getLast? = some (s.order.getLast hordernenil) :=
      List.getLast?_eq_getLast s.order hordernenil
    set tk := s.order.getLast hordernenil with htkdef
    have htkmem : tk ∈ s.order := List.getLast_mem hordernenil
    have htkmap : tk ∈ s.map.map Prod.fst := hperm.mem_iff.mpr htkmem
    have hkeyout : key ∉ s.map.map Prod.fst :=
      (alookup_eq_none_iff s.map key).mp hnone
    have htkne : tk ≠ key := fun h => hkeyout (h ▸ htkmap)
    have htksome : (alookup s.map tk).isSome :=
      (alookup_isSome_iff s.map tk).mpr htkmap
    obtain ⟨w, hw⟩ := Option.isSome_iff_exists.mp htksome
    have hgt : s.map.length + 1 > s.capacity := by omega
    have heq := LRUCache.add_item_of_none s now key v hnone
    rw [if_pos hgt, getLast?_cons_of_ne_nil hordernenil, htk] at heq
    have hinsnodup :
        ((ainsert s.map key (⟨v, now + s.ttl_seconds⟩ : NodeData)).map
          Prod.fst).Nodup := by
      rw [map_fst_ainsert_of_none _ hnone]
      simp [List.nodup_append, hmapnodup, hkeyout]
    refine ⟨tk, htk, htkne, ?_, ?_, ?_, ?_, ?_⟩
    · rw [heq]
      show (key :: s.order).erase tk = key :: s.order.dropLast
      rw [List.erase_cons_tail, erase_getLast_of_nodup s.order hnodup htk]
      simp [Ne.symm htkne]
    · rw [heq]
      show alookup
        (aremove (ainsert s.map key ⟨v, now + s.ttl_seconds⟩) tk) key =
        some ⟨v, now + s.ttl_seconds⟩
      rw [alookup_aremove_of_ne _ htkne, alookup_ainsert_self]
    · rw [heq]
      exact alookup_aremove_self hinsnodup
    · intro k2 hk2key hk2tk
      rw [heq]
      show alookup
        (aremove (ainsert s.map key ⟨v, now + s.ttl_seconds⟩) tk) k2 =
        alookup s.map k2
      rw [alookup_aremove_of_ne _ (Ne.symm hk2tk),
        alookup_ainsert_of_ne _ _ (fun h => hk2key h.symm)]
    · rw [heq]
      show (aremove (ainsert s.map key ⟨v, now + s.ttl_seconds⟩) tk).length =
        s.capacity
      have hlk :
          alookup (ainsert s.map key (⟨v, now + s.ttl_seconds⟩ : NodeData)) tk =
          some w := by
        rw [alookup_ainsert_of_ne _ _ (Ne.symm htkne)]
        exact hw
      have := length_aremove_of_some hlk
      have hil := length_ainsert_of_none
        (⟨v, now + s.ttl_seconds⟩ : NodeData) hnone
      omega
  · intro s now key v nd h
    rw [LRUCache.add_item_of_some s now key v nd h]
    refine ⟨?_, rfl⟩
    exact length_ainsert_of_some _ h

/-- Witness for C3: a concrete two-entry cache at capacity 2; inserting a new
key "c" evicts the tail "a", and re-inserting "b" evicts nothing. -/
theorem add_item_eviction_policy_witness :
    (∃ tk,
      (⟨2, 5, [("a", ⟨[1], 5⟩), ("b", ⟨[2], 5⟩)], ["b", "a"]⟩ :
        LRUCache).order.getLast? = some tk ∧ tk ≠ "c" ∧
      ((⟨2, 5, [("a", ⟨[1], 5⟩), ("b", ⟨[2], 5⟩)], ["b", "a"]⟩ :
        LRUCache).add_item 0 "c" [3]).order =
        "c" :: (⟨2, 5, [("a", ⟨[1], 5⟩), ("b", ⟨[2], 5⟩)], ["b", "a"]⟩ :
          LRUCache).order.dropLast ∧
      alookup ((⟨2, 5, [("a", ⟨[1], 5⟩), ("b", ⟨[2], 5⟩)], ["b", "a"]⟩ :
        LRUCache).add_item 0 "c" [3]).map "c" = some ⟨[3], 0 + 5⟩ ∧
      alookup ((⟨2, 5, [("a", ⟨[1], 5⟩), ("b", ⟨[2], 5⟩)], ["b", "a"]⟩ :
        LRUCache).add_item 0 "c" [3]).map tk = none ∧
      (∀ k2, k2 ≠ "c" → k2 ≠ tk →
        alookup ((⟨2, 5, [("a", ⟨[1], 5⟩), ("b", ⟨[2], 5⟩)], ["b", "a"]⟩ :
          LRUCache).add_item 0 "c" [3]).map k2 =
        alookup (⟨2, 5, [("a", ⟨[1], 5⟩), ("b", ⟨[2], 5⟩)], ["b", "a"]⟩ :
          LRUCache).map k2) ∧
      ((⟨2, 5, [("a", ⟨[1], 5⟩), ("b", ⟨[2], 5⟩)], ["b", "a"]⟩ :
        LRUCache).add_item 0 "c" [3]).map.length = 2) ∧
    (((⟨2, 5, [("a", ⟨[1], 5⟩), ("b", ⟨[2], 5⟩)], ["b", "a"]⟩ :
      LRUCache).add_item 7 "b" [9]).map.length =
      (⟨2, 5, [("a", ⟨[1], 5⟩), ("b", ⟨[2], 5⟩)], ["b", "a"]⟩ :
        LRUCache).map.length ∧
      ((⟨2, 5, [("a", ⟨[1], 5⟩), ("b", ⟨[2], 5⟩)], ["b", "a"]⟩ :
        LRUCache).add_item 7 "b" [9]).order =
        "b" :: (⟨2, 5, [("a", ⟨[1], 5⟩), ("b", ⟨[2], 5⟩)], ["b", "a"]⟩ :
          LRUCache).order.erase "b") :=
  ⟨add_item_eviction_policy.1
      ⟨2, 5, [("a", ⟨[1], 5⟩), ("b", ⟨[2], 5⟩)], ["b", "a"]⟩ 0 "c" [3]
      (by decide) (by decide) (by decide) (by decide),
    add_item_eviction_policy.2
      ⟨2, 5, [("a", ⟨[1], 5⟩), ("b", ⟨[2], 5⟩)], ["b", "a"]⟩ 7 "b" [9]
      ⟨[2], 5⟩ (by decide)⟩

/-- C1: the capacity bound fails on `LRUCache2` (cache2.rs).  Starting from a
fresh cache with capacity 2: set k1, set k2, get k1, set k3, set k4 leaves
three live entries in the value map of a capacity-2 cache.  The root cause is
`push_item_to_front`, which stores index 0 for every key and never updates the
recorded positions of the other keys, so `VecDeque::remove` deletes the wrong
deque element; eviction then pops keys that are no longer in the map while the
map keeps growing.  (All operations run at time 0 with ttl 1, so nothing
expires.) -/
theorem cache2_capacity_exceeded :
    (Cache2.set (Cache2.set
        ((Cache2.get (Cache2.set (Cache2.set
            (Cache2.new Cache2.initData 2 1) 0 "k1" [1]) 0 "k2" [2]) 0 "k1").2)
        0 "k3" [3]) 0 "k4" [4]).cache.length = 3 ∧
    (Cache2.set (Cache2.set
        ((Cache2.get (Cache2.set (Cache2.set
            (Cache2.new Cache2.initData 2 1) 0 "k1" [1]) 0 "k2" [2]) 0 "k1").2)
        0 "k3" [3]) 0 "k4" [4]).capacity = 2 := by
  decide

/-- C6: the index/recency-order correspondence (spec invariant I2) fails on
`LRUCache2` (cache2.rs).  Starting from a fresh cache with capacity 2: after
set k1, set k2, get k1, the recency deque is ["k1", "k1"] — the key "k1"
appears twice in the recency order, and "k2", although live in the value map,
does not appear in the recency order at all.  The stale `cache_index` made the
hit on k1 remove k2 from the deque instead of k1's old position. -/
theorem cache2_index_order_mismatch :
    (((Cache2.get (Cache2.set (Cache2.set
        (Cache2.new Cache2.initData 2 1) 0 "k1" [1]) 0 "k2" [2]) 0 "k1").2).keys.count
      "k1" = 2) ∧
    (alookup ((Cache2.get (Cache2.set (Cache2.set
        (Cache2.new Cache2.initData 2 1) 0 "k1" [1]) 0 "k2" [2]) 0 "k1").2).cache
      "k2").isSome ∧
    "k2" ∉ ((Cache2.get (Cache2.set (Cache2.set
        (Cache2.new Cache2.initData 2 1) 0 "k1" [1]) 0 "k2" [2]) 0 "k1").2).keys := by
  decide

/-- C2 counterexample: in `LRUCache` (cache.rs) an entry whose `expires_at`
exactly equals "now" is NOT expired.  Insert "k" at time 10 with ttl 5
(`expires_at = 15`); a lookup at time 15 — i.e. exactly T seconds after
insertion — still returns the value, where the claim requires a miss.
cache.rs tests `now_seconds() > expires_at`, not `>=`. -/
theorem lru_expiry_boundary_hit :
    (((LRUCache.new 1 5).add_item 10 "k" [7]).get_item 15 "k").1 = some [7] := by
  decide

/-- C2 as amended: insert a key into a freshly constructed cache (capacity at
least 1) at time `t0`.  In both implementations a lookup strictly before the
expiration instant hits.  In `LRUCache2` (cache2.rs) a lookup at or after
`t0 + ttl` (in ms) misses and removes the entry, as the claim states; in
`LRUCache` (cache.rs) the miss-and-remove boundary is strictly after
`expires_at = t0 + ttl` (in s) — a lookup exactly at `expires_at` is still a
hit, and only lookups with `now > expires_at` miss and remove (restoring the
empty cache). -/
theorem ttl_expiry_semantics :
    (∀ (cap ttl t0 t1 : Nat) (key : String) (v : Bytes), 1 ≤ cap →
      (t1 ≤ t0 + ttl →
        (((LRUCache.new cap ttl).add_item t0 key v).get_item t1 key).1 =
          some v) ∧
      (t0 + ttl < t1 →
        ((LRUCache.new cap ttl).add_item t0 key v).get_item t1 key =
          (none, LRUCache.new cap ttl))) ∧
    (∀ (cap ttl t0 t1 : Nat) (key : String) (v : Bytes), 1 ≤ cap →
      (t1 < t0 + ttl * 1000 →
        (Cache2.get (Cache2.set (Cache2.new Cache2.initData cap ttl) t0 key v)
          t1 key).1 = some v) ∧
      (t0 + ttl * 1000 ≤ t1 →
        (Cache2.get (Cache2.set (Cache2.new Cache2.initData cap ttl) t0 key v)
          t1 key).1 = none ∧
        alookup (Cache2.get
          (Cache2.set (Cache2.new Cache2.initData cap ttl) t0 key v)
          t1 key).2.cache key = none)) := by
  constructor
  · intro cap ttl t0 t1 key v hcap
    have hs1 : (LRUCache.new cap ttl).add_item t0 key v =
        ⟨cap, ttl, [(key, ⟨v, t0 + ttl⟩)], [key]⟩ := by
      rw [LRUCache.add_item_of_none (LRUCache.new cap ttl) t0 key v rfl]
      rw [if_neg (by simp [LRUCache.new]; omega)]
      rfl
    rw [hs1]
    constructor
    · intro hle
      have hnot : ¬ (t0 + ttl < t1) := Nat.not_lt.mpr hle
      simp [LRUCache.get_item, alookup, hnot]
    · intro hlt
      simp [LRUCache.get_item, alookup, hlt, LRUCache.new, aremove]
  · intro cap ttl t0 t1 key v hcap
    have hd1 : Cache2.set (Cache2.new Cache2.initData cap ttl) t0 key v =
        ⟨[(key, ⟨v, t0 + ttl * 1000⟩)], [(key, 0)], [key], cap, ttl⟩ := by
      unfold Cache2.set Cache2.push_item_to_front Cache2.evict_if_necessary
      simp only [Cache2.new, Cache2.initData, alookup, ainsert]
      rw [if_neg (by simp; omega)]
    rw [hd1]
    constructor
    · intro hlt
      have hgt : t0 + ttl * 1000 > t1 := hlt
      simp [Cache2.get, alookup, hgt]
    · intro hle
      have hnot : ¬ (t0 + ttl * 1000 > t1) := Nat.not_lt.mpr hle
      simp [Cache2.get, alookup, hnot, Cache2.evict_by_key, aremove]

/-- Witness for C2 (amended): capacity 1, ttl 5, insertion at time 10; the
lookup at 14 s hits and at 16 s misses in cache.rs; the lookup at 5009 ms hits
and at 5010 ms misses and removes in cache2.rs. -/
theorem ttl_expiry_semantics_witness :
    ((((LRUCache.new 1 5).add_item 10 "k" [7]).get_item 14 "k").1 = some [7] ∧
      ((LRUCache.new 1 5).add_item 10 "k" [7]).get_item 16 "k" =
        (none, LRUCache.new 1 5)) ∧
    ((Cache2.get (Cache2.set (Cache2.new Cache2.initData 1 5) 10 "k" [7])
        5009 "k").1 = some [7] ∧
      ((Cache2.get (Cache2.set (Cache2.new Cache2.initData 1 5) 10 "k" [7])
        5010 "k").1 = none ∧
      alookup (Cache2.get
        (Cache2.set (Cache2.new Cache2.initData 1 5) 10 "k" [7])
        5010 "k").2.cache "k" = none)) :=
  ⟨⟨(ttl_expiry_semantics.1 1 5 10 14 "k" [7] (by decide)).1 (by decide),
    (ttl_expiry_semantics.1 1 5 10 16 "k" [7] (by decide)).2 (by decide)⟩,
    ⟨(ttl_expiry_semantics.2 1 5 10 5009 "k" [7] (by decide)).1 (by decide),
      (ttl_expiry_semantics.2 1 5 10 5010 "k" [7] (by decide)).2 (by decide)⟩⟩

/-- C4 counterexample: in `LRUCache` (cache.rs) re-inserting an existing key
does NOT recompute `expires_at`.  Insert "k" at time 0 with ttl 5
(`expires_at = 5`), then insert "k" again at time 3: the stored entry has the
new value but still `expires_at = 5`, not `3 + 5 = 8` as the claim requires —
the update branch of `add_item` only overwrites `value`. -/
theorem lru_update_keeps_expiry :
    alookup (((LRUCache.new 2 5).add_item 0 "k" [1]).add_item 3 "k" [2]).map
      "k" = some ⟨[2], 5⟩ ∧
    alookup (((LRUCache.new 2 5).add_item 0 "k" [1]).add_item 3 "k" [2]).map
      "k" ≠ some ⟨[2], 3 + 5⟩ := by
  decide

/-- C4 as amended: an insert of an already-present key replaces the stored
value, moves the key to the head of the recency order, and leaves the
live-entry count unchanged in both implementations; `LRUCache2.set`
(cache2.rs) also recomputes `expires_at = now + ttl`, but `LRUCache.add_item`
(cache.rs) leaves the entry's original `expires_at` untouched.  The cache2
hypotheses (`cache_index` maps the key to 0, a nonempty deque no longer than
capacity) hold in every reachable state. -/
theorem insert_update_semantics :
    (∀ (s : LRUCache) (now : Nat) (key : String) (v : Bytes) (nd : NodeData),
      alookup s.map key = some nd →
      alookup (s.add_item now key v).map key = some ⟨v, nd.expires_at⟩ ∧
      (∀ k2, k2 ≠ key →
        alookup (s.add_item now key v).map k2 = alookup s.map k2) ∧
      (s.add_item now key v).map.length = s.map.length ∧
      (s.add_item now key v).order = key :: s.order.erase key) ∧
    (∀ (d : CacheData) (now : Nat) (key : String) (v : Bytes) (it : CacheItem),
      alookup d.cache key = some it →
      alookup d.cache_index key = some 0 →
      d.keys ≠ [] → d.keys.length ≤ d.capacity →
      alookup (Cache2.set d now key v).cache key =
        some ⟨v, now + d.ttl_seconds * 1000⟩ ∧
      (Cache2.set d now key v).cache.length = d.cache.length ∧
      (Cache2.set d now key v).keys = key :: d.keys.tail) := by
  constructor
  · intro s now key v nd h
    rw [LRUCache.add_item_of_some s now key v nd h]
    refine ⟨alookup_ainsert_self _ _ _, ?_, length_ainsert_of_some _ h, rfl⟩
    intro k2 hk2
    exact alookup_ainsert_of_ne _ _ (fun hh => hk2 hh.symm)
  · intro d now key v it hcache hidx hne hlen
    obtain ⟨a, t, hk⟩ : ∃ a t, d.keys = a :: t := by
      cases hkk : d.keys with
      | nil => exact absurd hkk hne
      | cons a t => exact ⟨a, t, rfl⟩
    have hlen2 : t.length + 1 ≤ d.capacity := by
      rw [hk] at hlen
      simpa using hlen
    have hset : Cache2.set d now key v =
        ⟨ainsert d.cache key ⟨v, now + d.ttl_seconds * 1000⟩,
          ainsert d.cache_index key 0, key :: t, d.capacity, d.ttl_seconds⟩ := by
      unfold Cache2.set Cache2.push_item_to_front Cache2.evict_if_necessary
      simp only [hidx, hk, List.eraseIdx]
      rw [if_neg (by simp only [List.length_cons]; omega)]
    rw [hset, hk]
    exact ⟨alookup_ainsert_self _ _ _, length_ainsert_of_some _ hcache, rfl⟩

/-- Witness for C4 (amended): a one-entry cache in each implementation,
updated at time 3 with ttl 5; cache.rs keeps `expires_at = 5`, cache2.rs sets
`expiration_time_millis = 3 + 5000`. -/
theorem insert_update_semantics_witness :
    (alookup ((⟨2, 5, [("k", ⟨[1], 5⟩)], ["k"]⟩ :
        LRUCache).add_item 3 "k" [2]).map "k" = some ⟨[2], 5⟩ ∧
      (∀ k2, k2 ≠ "k" →
        alookup ((⟨2, 5, [("k", ⟨[1], 5⟩)], ["k"]⟩ :
          LRUCache).add_item 3 "k" [2]).map k2 =
        alookup (⟨2, 5, [("k", ⟨[1], 5⟩)], ["k"]⟩ : LRUCache).map k2) ∧
      ((⟨2, 5, [("k", ⟨[1], 5⟩)], ["k"]⟩ :
        LRUCache).add_item 3 "k" [2]).map.length =
        (⟨2, 5, [("k", ⟨[1], 5⟩)], ["k"]⟩ : LRUCache).map.length ∧
      ((⟨2, 5, [("k", ⟨[1], 5⟩)], ["k"]⟩ :
        LRUCache).add_item 3 "k" [2]).order =
        "k" :: (⟨2, 5, [("k", ⟨[1], 5⟩)], ["k"]⟩ :
          LRUCache).order.erase "k") ∧
    (alookup (Cache2.set (⟨[("k", ⟨[1], 5000⟩)], [("k", 0)], ["k"], 2, 5⟩ :
        CacheData) 3 "k" [2]).cache "k" = some ⟨[2], 3 + 5 * 1000⟩ ∧
      (Cache2.set (⟨[("k", ⟨[1], 5000⟩)], [("k", 0)], ["k"], 2, 5⟩ :
        CacheData) 3 "k" [2]).cache.length =
        (⟨[("k", ⟨[1], 5000⟩)], [("k", 0)], ["k"], 2, 5⟩ :
          CacheData).cache.length ∧
      (Cache2.set (⟨[("k", ⟨[1], 5000⟩)], [("k", 0)], ["k"], 2, 5⟩ :
        CacheData) 3 "k" [2]).keys =
        "k" :: (⟨[("k", ⟨[1], 5000⟩)], [("k", 0)], ["k"], 2, 5⟩ :
          CacheData).keys.tail) :=
  ⟨insert_update_semantics.1 ⟨2, 5, [("k", ⟨[1], 5⟩)], ["k"]⟩ 3 "k" [2]
      ⟨[1], 5⟩ (by decide),
    insert_update_semantics.2 ⟨[("k", ⟨[1], 5000⟩)], [("k", 0)], ["k"], 2, 5⟩
      3 "k" [2] ⟨[1], 5000⟩ (by decide) (by decide) (by decide) (by decide)⟩

/-- C5: on the read path, once the cache lookup has missed (post-lookup cache
state `c1`), a backing-store `ItemNotFound` yields 404 and an `otherError`
yields 500, both with exactly one fetch call and the Entry Store left exactly
as the lookup left it (no population); a fetched value is inserted with the
configured TTL and returned with 200.  Additionally, a miss on an absent key
leaves the whole store untouched, so in that case `c1` is the original store.
-/
theorem get_key_miss_semantics :
    (∀ (cache : LRUCache) (now : Nat) (key m1 m2 : String) (v : Bytes)
      (c1 : LRUCache),
      cache.get_item now key = (none, c1) →
      get_key cache now key (.itemNotFound m1) = (.notFound404, c1, 1) ∧
      get_key cache now key (.otherError m2) = (.internalError500, c1, 1) ∧
      get_key cache now key (.ok v) = (.ok200 v, c1.add_item now key v, 1)) ∧
    (∀ (cache : LRUCache) (now : Nat) (key : String),
      alookup cache.map key = none → (cache.get_item now key).2 = cache) := by
  constructor
  · intro cache now key m1 m2 v c1 h
    refine ⟨?_, ?_, ?_⟩ <;> simp [get_key, h]
  · intro cache now key h
    simp [LRUCache.get_item, h]

/-- Witness for C5: an empty cache with capacity 2; the lookup misses and the
three fetch outcomes produce 404 / 500 / population-and-200. -/
theorem get_key_miss_semantics_witness :
    (get_key (LRUCache.new 2 60) 0 "x" (.itemNotFound "x") =
      (.notFound404, LRUCache.new 2 60, 1) ∧
      get_key (LRUCache.new 2 60) 0 "x" (.otherError "boom") =
        (.internalError500, LRUCache.new 2 60, 1) ∧
      get_key (LRUCache.new 2 60) 0 "x" (.ok [9]) =
        (.ok200 [9], (LRUCache.new 2 60).add_item 0 "x" [9], 1)) ∧
    ((LRUCache.new 2 60).get_item 0 "x").2 = LRUCache.new 2 60 :=
  ⟨get_key_miss_semantics.1 (LRUCache.new 2 60) 0 "x" "x" "boom" [9]
      (LRUCache.new 2 60) (by decide),
    get_key_miss_semantics.2 (LRUCache.new 2 60) 0 "x" (by decide)⟩

/-- C7: a lookup of an absent key is a miss and leaves the entire store state
unchanged, in both implementations; and a hit returns the stored value while
leaving the value map — and hence every entry's expiration timestamp —
unchanged (a read never extends the expiration; only the recency order
moves). -/
theorem lookup_frame_semantics :
    (∀ (s : LRUCache) (now : Nat) (key : String),
      alookup s.map key = none → s.get_item now key = (none, s)) ∧
    (∀ (d : CacheData) (now : Nat) (key : String),
      alookup d.cache key = none → Cache2.get d now key = (none, d)) ∧
    (∀ (s : LRUCache) (now : Nat) (key : String) (nd : NodeData),
      alookup s.map key = some nd → now ≤ nd.expires_at →
      (s.get_item now key).1 = some nd.value ∧
      (s.get_item now key).2.map = s.map) ∧
    (∀ (d : CacheData) (now : Nat) (key : String) (it : CacheItem),
      alookup d.cache key = some it → now < it.expiration_time_millis →
      (Cache2.get d now key).1 = some it.value ∧
      (Cache2.get d now key).2.cache = d.cache) := by
  refine ⟨?_, ?_, ?_, ?_⟩
  · intro s now key h
    simp [LRUCache.get_item, h]
  · intro d now key h
    simp [Cache2.get, h]
  · intro s now key nd h hle
    have hnot : ¬ (nd.expires_at < now) := Nat.not_lt.mpr hle
    constructor <;>
      simp [LRUCache.get_item, h, hnot, LRUCache.move_to_head,
        LRUCache.add_to_head, LRUCache.remove_node]
  · intro d now key it h hlt
    constructor <;> simp [Cache2.get, h, hlt, Cache2.push_item_to_front]

/-- Witness for C7: an absent key "z" misses with no state change in both
implementations, and a present unexpired key "k" hits with the value map
untouched in both implementations. -/
theorem lookup_frame_semantics_witness :
    ((⟨2, 5, [("k", ⟨[1], 9⟩)], ["k"]⟩ : LRUCache).get_item 4 "z" =
      (none, ⟨2, 5, [("k", ⟨[1], 9⟩)], ["k"]⟩) ∧
      Cache2.get (⟨[("k", ⟨[1], 9000⟩)], [("k", 0)], ["k"], 2, 5⟩ :
        CacheData) 4 "z" =
        (none, ⟨[("k", ⟨[1], 9000⟩)], [("k", 0)], ["k"], 2, 5⟩)) ∧
    (((⟨2, 5, [("k", ⟨[1], 9⟩)], ["k"]⟩ : LRUCache).get_item 4 "k").1 =
      some [1] ∧
      ((⟨2, 5, [("k", ⟨[1], 9⟩)], ["k"]⟩ : LRUCache).get_item 4 "k").2.map =
        (⟨2, 5, [("k", ⟨[1], 9⟩)], ["k"]⟩ : LRUCache).map) ∧
    ((Cache2.get (⟨[("k", ⟨[1], 9000⟩)], [("k", 0)], ["k"], 2, 5⟩ :
        CacheData) 4 "k").1 = some [1] ∧
      (Cache2.get (⟨[("k", ⟨[1], 9000⟩)], [("k", 0)], ["k"], 2, 5⟩ :
        CacheData) 4 "k").2.cache =
        (⟨[("k", ⟨[1], 9000⟩)], [("k", 0)], ["k"], 2, 5⟩ :
          CacheData).cache) :=
  ⟨⟨lookup_frame_semantics.1 ⟨2, 5, [("k", ⟨[1], 9⟩)], ["k"]⟩ 4 "z"
        (by decide),
      lookup_frame_semantics.2.1 ⟨[("k", ⟨[1], 9000⟩)], [("k", 0)], ["k"], 2, 5⟩
        4 "z" (by decide)⟩,
    lookup_frame_semantics.2.2.1 ⟨2, 5, [("k", ⟨[1], 9⟩)], ["k"]⟩ 4 "k"
      ⟨[1], 9⟩ (by decide) (by decide),
    lookup_frame_semantics.2.2.2 ⟨[("k", ⟨[1], 9000⟩)], [("k", 0)], ["k"], 2, 5⟩
      4 "k" ⟨[1], 9000⟩ (by decide) (by decide)⟩

/-- C8: the write path forwards the body to the backing store exactly once
(the call count is 1 in every outcome), returns 201 when the store accepts
and 500 on any store error, and never touches the Entry Store (the cache
state passes through unchanged in both outcomes). -/
theorem post_key_semantics :
    ∀ (cache : LRUCache) (msg : String),
      post_key cache .ok = (201, cache, 1) ∧
      post_key cache (.err msg) = (500, cache, 1) :=
  fun _ _ => ⟨rfl, rfl⟩

/-- C9 counterexample: the Entry Store is NOT one shared structure visible to
all threads.  With every thread starting from a fresh capacity-2 cache,
thread 0 inserts "k"; a lookup by thread 0 hits, but the same lookup by
thread 1 misses — the two threads observe different cached entries, because
`thread_local!` gives each thread its own independent `LRUCache`. -/
theorem thread_local_not_shared :
    (localcache_get_item
      (localcache_add_item (fun _ => LRUCache.new 2 60) 0 5 "k" [1])
      0 5 "k").1 = some [1] ∧
    (localcache_get_item
      (localcache_add_item (fun _ => LRUCache.new 2 60) 0 5 "k" [1])
      1 5 "k").1 = none := by
  exact ⟨rfl, rfl⟩

/-- C9 as amended: the caches are thread-local, not shared.  Every
`LocalCache` operation run by thread `t` acts as the corresponding `LRUCache`
operation on thread `t`'s own state and leaves every other thread's state
completely unchanged; safety under concurrent access holds only in this
trivial sense of per-thread isolation, and threads never observe each other's
entries. -/
theorem thread_local_isolation :
    (∀ (sys : Nat → LRUCache) (t u cap ttl : Nat), u ≠ t →
      localcache_new sys t cap ttl u = sys u) ∧
    (∀ (sys : Nat → LRUCache) (t u now : Nat) (key : String) (v : Bytes),
      u ≠ t → localcache_add_item sys t now key v u = sys u) ∧
    (∀ (sys : Nat → LRUCache) (t u now : Nat) (key : String), u ≠ t →
      (localcache_get_item sys t now key).2 u = sys u) ∧
    (∀ (sys : Nat → LRUCache) (t now : Nat) (key : String) (v : Bytes),
      localcache_add_item sys t now key v t = (sys t).add_item now key v) ∧
    (∀ (sys : Nat → LRUCache) (t now : Nat) (key : String),
      (localcache_get_item sys t now key).1 = ((sys t).get_item now key).1 ∧
      (localcache_get_item sys t now key).2 t =
        ((sys t).get_item now key).2) := by
  refine ⟨?_, ?_, ?_, ?_, ?_⟩
  · intro sys t u cap ttl h
    simp [localcache_new, h]
  · intro sys t u now key v h
    simp [localcache_add_item, h]
  · intro sys t u now key h
    simp [localcache_get_item, h]
  · intro sys t now key v
    simp [localcache_add_item]
  · intro sys t now key
    exact ⟨rfl, by simp [localcache_get_item]⟩

/-- Witness for C9 (amended): threads 0 and 1 over fresh capacity-1 caches;
thread 0's operations leave thread 1's state untouched and act on its own
state as plain `LRUCache` operations. -/
theorem thread_local_isolation_witness :
    localcache_new (fun _ => LRUCache.new 1 1) 0 3 9 1 = LRUCache.new 1 1 ∧
    localcache_add_item (fun _ => LRUCache.new 1 1) 0 0 "k" [1] 1 =
      LRUCache.new 1 1 ∧
    (localcache_get_item (fun _ => LRUCache.new 1 1) 0 0 "k").2 1 =
      LRUCache.new 1 1 ∧
    localcache_add_item (fun _ => LRUCache.new 1 1) 0 0 "k" [1] 0 =
      (LRUCache.new 1 1).add_item 0 "k" [1] ∧
    ((localcache_get_item (fun _ => LRUCache.new 1 1) 0 0 "k").1 =
      ((LRUCache.new 1 1).get_item 0 "k").1 ∧
      (localcache_get_item (fun _ => LRUCache.new 1 1) 0 0 "k").2 0 =
        ((LRUCache.new 1 1).get_item 0 "k").2) :=
  ⟨thread_local_isolation.1 (fun _ => LRUCache.new 1 1) 0 1 3 9 (by decide),
    thread_local_isolation.2.1 (fun _ => LRUCache.new 1 1) 0 1 0 "k" [1]
      (by decide),
    thread_local_isolation.2.2.1 (fun _ => LRUCache.new 1 1) 0 1 0 "k"
      (by decide),
    thread_local_isolation.2.2.2.1 (fun _ => LRUCache.new 1 1) 0 0 "k" [1],
    thread_local_isolation.2.2.2.2 (fun _ => LRUCache.new 1 1) 0 0 "k"⟩

/-- C10: `LocalCache::new(capacity, ttl)` overwrites the calling thread's
`thread_local!` cache with a fresh `LRUCache::new(capacity, ttl)`: whatever
was cached on that thread before, the thread's state afterwards is the empty
store with the new configuration, and every subsequent lookup on it misses —
so constructing a second `LocalCache` on a thread silently empties the cache
that any earlier handle on the same thread refers to. -/
theorem localcache_new_resets :
    ∀ (sys : Nat → LRUCache) (t cap ttl : Nat),
      localcache_new sys t cap ttl t = LRUCache.new cap ttl ∧
      (∀ (now : Nat) (key : String),
        (localcache_new sys t cap ttl t).get_item now key =
          (none, LRUCache.new cap ttl)) := by
  intro sys t cap ttl
  have h1 : localcache_new sys t cap ttl t = LRUCache.new cap ttl := by
    simp [localcache_new]
  exact ⟨h1, fun now key => by rw [h1]; rfl⟩
